import Mathlib

/-!
Verification of the lekton document-ingestion pipeline.

This file gives a shallow embedding of the core ingestion code:
`src/auth/models.rs` (AccessLevel), `src/rendering/links.rs` (link
extraction), `src/db/models.rs` (Document / IngestRequest /
IngestResponse), `src/db/repository.rs` (repository operations,
including `update_backlinks`), `src/storage/client.rs` (blob store),
`src/search/client.rs` (search surrogate) and `src/api/ingest.rs`
(`process_ingest`).

Strings are Lean `String`s; timestamps are `Nat`; the MongoDB
collection is a list of `Document` values; the S3 bucket is an
association list.  The external markdown parser (pulldown_cmark) is
abstracted as a function giving the list of link-destination URLs of a
body, and a preview-stripping function; everything downstream of the
parser is embedded from the source.  Fallible collaborator calls are
modelled by a fault-injection record: each port either succeeds with
the in-memory semantics or fails with the error the source maps it to.
-/

namespace Lekton

/-- Access levels, from `src/auth/models.rs`.  The variant order is the
privilege hierarchy. -/
inductive AccessLevel where
  | Public
  | Developer
  | Architect
  | Admin
deriving DecidableEq, Repr

/-- Numeric value of an access level (`AccessLevel as i32` in the source). -/
def AccessLevel.toNat : AccessLevel → Nat
  | .Public => 0
  | .Developer => 1
  | .Architect => 2
  | .Admin => 3

/-- ASCII lowercasing of a string (`to_lowercase` in the source, which is
applied to short ASCII keywords in the ingestion path). -/
def lowerStr (s : String) : String := ⟨s.data.map Char.toLower⟩

/-- `AccessLevel::from_str_ci`: case-insensitive parse; unknown text is `none`. -/
def AccessLevel.from_str_ci (s : String) : Option AccessLevel :=
  match lowerStr s with
  | "public" => some .Public
  | "developer" => some .Developer
  | "architect" => some .Architect
  | "admin" => some .Admin
  | _ => none

/-! ## Link extraction, from `src/rendering/links.rs` -/

/-- `url.trim_start_matches('/')`: drop all leading slashes. -/
def trimLeadSlash : List Char → List Char
  | '/' :: rest => trimLeadSlash rest
  | s => s

/-- `.trim_start_matches("docs/")`: repeatedly drop a leading `docs/`. -/
def dropDocs : List Char → List Char
  | 'd' :: 'o' :: 'c' :: 's' :: '/' :: rest => dropDocs rest
  | s => s

/-- `.split('#').next()`: the text before the first `#`. -/
def beforeHash : List Char → List Char
  | [] => []
  | c :: cs => if c = '#' then [] else c :: beforeHash cs

/-- `.trim_end_matches('/')`: drop all trailing slashes. -/
def trimTrailSlash (s : List Char) : List Char := (trimLeadSlash s.reverse).reverse

/-- `normalize_link`: strip the `/docs/` document-root path, an anchor
fragment and a trailing slash. -/
def normalize_link (url : String) : String :=
  ⟨trimTrailSlash (beforeHash (dropDocs (trimLeadSlash url.data)))⟩

/-- Boolean string-starts-with on character lists. -/
def startsWithL : List Char → List Char → Bool
  | [], _ => true
  | _ :: _, [] => false
  | p :: ps, c :: cs => p == c && startsWithL ps cs

/-- `is_internal_link`: not an external URL, not a pure anchor, not mailto. -/
def is_internal_link (url : String) : Bool :=
  !startsWithL "http://".data url.data
    && !startsWithL "https://".data url.data
    && !startsWithL "#".data url.data
    && !startsWithL "mailto:".data url.data

/-- The event loop of `extract_internal_links`, folded over the
link-destination URLs the markdown parser yields, with the accumulator
of already collected normalized slugs. -/
def extractLoop : List String → List String → List String
  | [], acc => acc
  | u :: rest, acc =>
    if is_internal_link u then
      let n := normalize_link u
      if n ≠ "" ∧ n ∉ acc then extractLoop rest (acc ++ [n])
      else extractLoop rest acc
    else extractLoop rest acc

/-- `extract_internal_links`, over the list of link-destination URLs of
the body (the `Event::Start(Tag::Link)` destinations, in document
order, as produced by the external markdown parser). -/
def extract_internal_links (urls : List String) : List String := extractLoop urls []

/-! ## Data model, from `src/db/models.rs` and `src/search/client.rs` -/

/-- A stored document (`Document` in `src/db/models.rs`). -/
structure Document where
  slug : String
  title : String
  s3_key : String
  access_level : AccessLevel
  service_owner : String
  last_updated : Nat
  tags : List String
  links_out : List String
  backlinks : List String
  parent_slug : Option String
  order : Nat
  is_hidden : Bool
deriving DecidableEq, Repr

/-- The ingest request payload (`IngestRequest`). -/
structure IngestRequest where
  service_token : String
  slug : String
  title : String
  content : String
  access_level : String
  service_owner : String
  tags : List String
  parent_slug : Option String
  order : Nat
  is_hidden : Bool
deriving DecidableEq, Repr

/-- The successful ingest response (`IngestResponse`). -/
structure IngestResponse where
  message : String
  slug : String
  s3_key : String
deriving DecidableEq, Repr

/-- Application errors (`AppError` in `src/error.rs`). -/
inductive AppError where
  | Database (msg : String)
  | Storage (msg : String)
  | Auth (msg : String)
  | NotFound (msg : String)
  | Forbidden (msg : String)
  | BadRequest (msg : String)
  | Internal (msg : String)
deriving DecidableEq, Repr

deriving instance DecidableEq for Except

/-- The denormalized search surrogate (`SearchDocument`). -/
structure SearchDocument where
  slug : String
  title : String
  access_level : Nat
  service_owner : String
  tags : List String
  content_preview : String
  last_updated : Nat
deriving DecidableEq, Repr

/-- `build_search_document`, with the markdown preview stripper passed
in as the collaborator function `stripPreview`. -/
def build_search_document (stripPreview : String → String) (doc : Document)
    (raw_content : String) : SearchDocument :=
  { slug := doc.slug
    title := doc.title
    access_level := doc.access_level.toNat
    service_owner := doc.service_owner
    tags := doc.tags
    content_preview := stripPreview raw_content
    last_updated := doc.last_updated }

/-! ## Repository operations, from `src/db/repository.rs` -/

/-- `find_by_slug` / `find_one {slug: ...}`: the first document whose
slug matches. -/
def find_by_slug (slug : String) : List Document → Option Document
  | [] => none
  | d :: ds => if d.slug = slug then some d else find_by_slug slug ds

/-- `create_or_update` / `replace_one {slug: ...} upsert`: replace the
first document with the same slug, or append the new document. -/
def create_or_update (doc : Document) : List Document → List Document
  | [] => [doc]
  | d :: ds => if d.slug = doc.slug then doc :: ds else d :: create_or_update doc ds

/-- `update_one {slug: t}`: apply `f` to the first document whose slug
is `t`, if any. -/
def updateFirst (t : String) (f : Document → Document) : List Document → List Document
  | [] => []
  | d :: ds => if d.slug = t then f d :: ds else d :: updateFirst t f ds

/-- The `$pull {backlinks: source}` update on one document: remove every
occurrence of `source` from its backlink array. -/
def pullDoc (source : String) (d : Document) : Document :=
  { d with backlinks := d.backlinks.filter (fun b => !decide (b = source)) }

/-- The `$addToSet {backlinks: source}` update on one document: append
`source` unless already present. -/
def addDoc (source : String) (d : Document) : Document :=
  if source ∈ d.backlinks then d else { d with backlinks := d.backlinks ++ [source] }

/-- `removed = old_links − new_links` as computed by `update_backlinks`. -/
def removedOf (old_links new_links : List String) : List String :=
  old_links.filter (fun l => !decide (l ∈ new_links))

/-- `added = new_links − old_links` as computed by `update_backlinks`. -/
def addedOf (old_links new_links : List String) : List String :=
  new_links.filter (fun l => !decide (l ∈ old_links))

/-- `MongoDocumentRepository::update_backlinks`: `$pull` the source slug
from each target that lost the link, then `$addToSet` it on each target
that gained the link, each via a per-slug `update_one`. -/
def update_backlinks (source : String) (old_links new_links : List String)
    (st : List Document) : List Document :=
  let st1 := (removedOf old_links new_links).foldl
    (fun acc t => updateFirst t (pullDoc source) acc) st
  (addedOf old_links new_links).foldl
    (fun acc t => updateFirst t (addDoc source) acc) st1

/-! ## Blob store, from `src/storage/client.rs` -/

/-- `put_object`: store the content under the key (replacing any prior
value for that key). -/
def putBlob (key content : String) : List (String × String) → List (String × String)
  | [] => [(key, content)]
  | (k, v) :: rest => if k = key then (key, content) :: rest else (k, v) :: putBlob key content rest

/-! ## The ingestion orchestrator, from `src/api/ingest.rs` -/

/-- The S3 key derivation of step 6: `format!("docs/{}.md",
slug.replace('/', "_"))`. -/
def s3_key_of (slug : String) : String :=
  ⟨"docs/".data ++ slug.data.map (fun c => if c = '/' then '_' else c) ++ ".md".data⟩

/-- The `Document` value `process_ingest` constructs in step 8, with
its merge-by-sentinel fallbacks to the old document. -/
def buildDoc (old_doc : Option Document) (request : IngestRequest)
    (access_level : AccessLevel) (links_out : List String) (now : Nat) : Document :=
  { slug := request.slug
    title := request.title
    s3_key := s3_key_of request.slug
    access_level := access_level
    service_owner := request.service_owner
    last_updated := now
    tags := request.tags
    links_out := links_out
    backlinks := (old_doc.map Document.backlinks).getD []
    parent_slug := if request.parent_slug.isSome then request.parent_slug
      else old_doc.bind Document.parent_slug
    order := if request.order > 0 then request.order
      else (old_doc.map Document.order).getD 0
    is_hidden := if request.is_hidden then true
      else (old_doc.map Document.is_hidden).getD false }

/-- The external markdown library (pulldown_cmark), abstracted at its
interface: the link-destination URLs of a body, and the stripped
preview used for the search surrogate. -/
structure MarkdownLib where
  linkUrls : String → List String
  stripPreview : String → String

/-- Fault injection for the fallible collaborator calls made by
`process_ingest`, in call order.  `none` means the call succeeds with
the in-memory semantics; `some msg` means it fails, with the error kind
the source maps that backend's failure to (`AppError::Database` for
MongoDB, `AppError::Storage` for S3, and a swallowed error for the
search index). -/
structure Faults where
  findErr : Option String
  putErr : Option String
  upsertErr : Option String
  backlinkErr : Option String
  indexErr : Option String
deriving DecidableEq, Repr

/-- All collaborator calls succeed. -/
def noFaults : Faults := ⟨none, none, none, none, none⟩

/-- The mutable world visible to one ingest call: the MongoDB
`documents` collection, the S3 bucket, and the list of surrogates
submitted to the search index. -/
structure World where
  repo : List Document
  blob : List (String × String)
  indexed : List SearchDocument
deriving DecidableEq, Repr

/-- A record of one call on a collaborator port. -/
inductive PortCall where
  | findBySlug (slug : String)
  | putObject (key : String)
  | upsert (slug : String)
  | mutateBacklinks (source : String)
  | indexDoc (slug : String)
deriving DecidableEq, Repr

/-- The outcome of one ingest call: its result, the world afterwards,
and the collaborator calls it performed, in order. -/
structure IngestOutcome where
  result : Except AppError IngestResponse
  world : World
  calls : List PortCall

/-- Steps 4-12 of `process_ingest` — everything after authentication
and validation have passed, with `access_level` already parsed.  Link
extraction, old-document lookup, key derivation, blob write, document
construction, search surrogate construction, metadata upsert, backlink
propagation (whose failure is propagated by `?`), and best-effort
search indexing (whose failure is logged and swallowed). -/
def ingestChecked (md : MarkdownLib) (hasSearch : Bool) (fl : Faults) (w : World)
    (request : IngestRequest) (access_level : AccessLevel) (now : Nat) : IngestOutcome :=
  let links_out := extract_internal_links (md.linkUrls request.content)
  match fl.findErr with
  | some msg => ⟨Except.error (AppError.Database msg), w, [.findBySlug request.slug]⟩
  | none =>
    let old_doc := find_by_slug request.slug w.repo
    let old_links := (old_doc.map Document.links_out).getD []
    let s3_key := s3_key_of request.slug
    match fl.putErr with
    | some msg =>
      ⟨Except.error (AppError.Storage msg), w,
        [.findBySlug request.slug, .putObject s3_key]⟩
    | none =>
          let blob1 := putBlob s3_key request.content w.blob
          let doc := buildDoc old_doc request access_level links_out now
          let search_doc :=
            if hasSearch then some (build_search_document md.stripPreview doc request.content)
            else none
          match fl.upsertErr with
          | some msg =>
            ⟨Except.error (AppError.Database msg), ⟨w.repo, blob1, w.indexed⟩,
              [.findBySlug request.slug, .putObject s3_key, .upsert request.slug]⟩
          | none =>
            let repo1 := create_or_update doc w.repo
            match fl.backlinkErr with
            | some msg =>
              ⟨Except.error (AppError.Database msg), ⟨repo1, blob1, w.indexed⟩,
                [.findBySlug request.slug, .putObject s3_key, .upsert request.slug,
                  .mutateBacklinks request.slug]⟩
            | none =>
              let repo2 := update_backlinks request.slug old_links links_out repo1
              match search_doc with
              | some sd =>
                match fl.indexErr with
                | some _ =>
                  ⟨Except.ok ⟨"Document ingested successfully", request.slug, s3_key⟩,
                    ⟨repo2, blob1, w.indexed⟩,
                    [.findBySlug request.slug, .putObject s3_key, .upsert request.slug,
                      .mutateBacklinks request.slug, .indexDoc request.slug]⟩
                | none =>
                  ⟨Except.ok ⟨"Document ingested successfully", request.slug, s3_key⟩,
                    ⟨repo2, blob1, w.indexed ++ [sd]⟩,
                    [.findBySlug request.slug, .putObject s3_key, .upsert request.slug,
                      .mutateBacklinks request.slug, .indexDoc request.slug]⟩
              | none =>
                ⟨Except.ok ⟨"Document ingested successfully", request.slug, s3_key⟩,
                  ⟨repo2, blob1, w.indexed⟩,
                  [.findBySlug request.slug, .putObject s3_key, .upsert request.slug,
                    .mutateBacklinks request.slug]⟩

/-- `process_ingest` from `src/api/ingest.rs`: token check (step 1),
slug validation (step 2), access-level parse (step 3), then the rest of
the pipeline (`ingestChecked`). -/
def process_ingest (md : MarkdownLib) (hasSearch : Bool) (fl : Faults) (w : World)
    (request : IngestRequest) (expected_token : String) (now : Nat) : IngestOutcome :=
  if request.service_token ≠ expected_token then
    ⟨Except.error (AppError.Auth "Invalid service token"), w, []⟩
  else if request.slug = "" then
    ⟨Except.error (AppError.BadRequest "Slug cannot be empty"), w, []⟩
  else
    match AccessLevel.from_str_ci request.access_level with
    | none =>
      ⟨Except.error (AppError.BadRequest
          "Invalid access level: expected public, developer, architect, admin"), w, []⟩
    | some access_level => ingestChecked md hasSearch fl w request access_level now

/-- Worlds reachable from the empty deployment by successful ingest
calls (all collaborator calls succeed and the call returns `ok`). -/
inductive Reachable (md : MarkdownLib) (hs : Bool) (tok : String) : World → Prop where
  | empty : Reachable md hs tok ⟨[], [], []⟩
  | step (w : World) (req : IngestRequest) (now : Nat) (r : IngestResponse) :
      Reachable md hs tok w →
      (process_ingest md hs noFaults w req tok now).result = Except.ok r →
      Reachable md hs tok (process_ingest md hs noFaults w req tok now).world

/-! ## Derived predicates -/

/-- The slugs of a repository state, in order. -/
def slugsOf (st : List Document) : List String := st.map Document.slug

/-- Every document is identified by a distinct slug — the data-model
uniqueness invariant. -/
def SlugsNodup (st : List Document) : Prop := (slugsOf st).Nodup

/-- Soundness direction of the backlink invariant: every stored
backlink is witnessed by a document that currently links back. -/
def BacklinkSound (st : List Document) : Prop :=
  ∀ x ∈ st, ∀ s ∈ x.backlinks, ∃ y ∈ st, y.slug = s ∧ x.slug ∈ y.links_out

/-- The full backlink invariant of the specification: the backlinks of
`x` are exactly the slugs of the documents whose outgoing links contain
`x`. -/
def BacklinkDerived (st : List Document) : Prop :=
  ∀ x ∈ st, ∀ s : String, s ∈ x.backlinks ↔ ∃ y ∈ st, y.slug = s ∧ x.slug ∈ y.links_out

/-- The per-document effect of `update_backlinks`, as a function of
whether the document's slug lost or gained the link. -/
def applyDelta (source : String) (removed added : List String) (d : Document) : Document :=
  if d.slug ∈ removed then pullDoc source d
  else if d.slug ∈ added then addDoc source d
  else d

/-! ## Concrete fixtures used by witnesses and counterexamples -/

/-- A concrete markdown collaborator: the body `body-a` contains one
internal reference, to `/docs/b`; every other body has no links. -/
def mdX : MarkdownLib :=
  ⟨fun c => if c = "body-a" then ["/docs/b"] else [], fun _ => ""⟩

/-- Ingest request for slug `a`, whose body links to `b`. -/
def reqA : IngestRequest :=
  ⟨"t", "a", "Doc A", "body-a", "public", "team", [], none, 0, false⟩

/-- Ingest request for slug `b`, with no links. -/
def reqB : IngestRequest :=
  ⟨"t", "b", "Doc B", "plain", "public", "team", [], none, 0, false⟩

/-- The empty deployment. -/
def w0 : World := ⟨[], [], []⟩

/-- The world after ingesting `a` (which links to the absent `b`). -/
def w1 : World := (process_ingest mdX false noFaults w0 reqA "t" 1).world

/-- The world after then ingesting `b`. -/
def w2 : World := (process_ingest mdX false noFaults w1 reqB "t" 2).world

/-- The document stored for `a` in `w2`. -/
def docA2 : Document :=
  ⟨"a", "Doc A", "docs/a.md", .Public, "team", 1, [], ["b"], [], none, 0, false⟩

/-- The document stored for `b` in `w2`: its backlinks are empty even
though `a` links to it, because `b` did not exist when `a` was
ingested. -/
def docB2 : Document :=
  ⟨"b", "Doc B", "docs/b.md", .Public, "team", 2, [], [], [], none, 0, false⟩

/-- Fixture target `a` with backlinks `{s, z}`. -/
def dA0 : Document := ⟨"a", "", "", .Public, "", 0, [], [], ["s", "z"], none, 0, false⟩

/-- Fixture target `b` with backlinks `{s}`. -/
def dB0 : Document := ⟨"b", "", "", .Public, "", 0, [], [], ["s"], none, 0, false⟩

/-- Fixture target `c` with no backlinks. -/
def dC0 : Document := ⟨"c", "", "", .Public, "", 0, [], [], [], none, 0, false⟩

/-- A stored document for slug `p` carrying hierarchy metadata. -/
def dP : Document :=
  ⟨"p", "Parent doc", "docs/p.md", .Developer, "team", 1, [], [], [], some "root", 5, true⟩

/-- A world holding just `dP`. -/
def wP : World := ⟨[dP], [], []⟩

/-- A re-ingest of `p` leaving `parent_slug`, `order` and `hidden` at
their unset sentinels. -/
def reqP : IngestRequest :=
  ⟨"t", "p", "Parent doc v2", "plain", "developer", "team", [], none, 0, false⟩

/-- A re-ingest of `p` with `parent_slug` present but empty. -/
def reqQ : IngestRequest :=
  ⟨"t", "p", "Parent doc v3", "plain", "developer", "team", [], some "", 0, false⟩

/-- Fault injection where only the backlink propagation fails. -/
def flB : Faults := ⟨none, none, none, some "boom", none⟩

/-! ## Basic list lemmas -/

/-- A map that fixes every element of the list is the identity. -/
lemma map_noop {α : Type} (l : List α) (f : α → α) (h : ∀ x ∈ l, f x = x) :
    l.map f = l := by
  induction l with
  | nil => rfl
  | cons a l ih =>
    simp only [List.map_cons, h a (by simp)]
    rw [ih (fun x hx => h x (by simp [hx]))]

/-- Maps agreeing on the elements of a list agree on the list. -/
lemma map_congr_mem {α β : Type} (l : List α) (f g : α → β) (h : ∀ x ∈ l, f x = g x) :
    l.map f = l.map g := by
  induction l with
  | nil => rfl
  | cons a l ih =>
    simp only [List.map_cons, h a (by simp)]
    rw [ih (fun x hx => h x (by simp [hx]))]

/-- Filtering twice with the same predicate filters once. -/
lemma filter_idem {α : Type} (p : α → Bool) (l : List α) :
    (l.filter p).filter p = l.filter p := by
  induction l with
  | nil => rfl
  | cons a l ih => by_cases h : p a <;> simp [List.filter_cons, h, ih]

/-- A fold whose every step fixes the state fixes the state. -/
lemma foldl_fixed {α β : Type} (g : β → α → β) (x : β) :
    ∀ ts : List α, (∀ t ∈ ts, g x t = x) → ts.foldl g x = x := by
  intro ts
  induction ts with
  | nil => intro _; rfl
  | cons u ts ih =>
    intro h
    rw [List.foldl_cons, h u (by simp)]
    exact ih (fun t ht => h t (by simp [ht]))

/-! ## Per-document backlink update lemmas -/

lemma pullDoc_slug (s : String) (d : Document) : (pullDoc s d).slug = d.slug := rfl

lemma pullDoc_links (s : String) (d : Document) : (pullDoc s d).links_out = d.links_out := rfl

lemma pullDoc_parent (s : String) (d : Document) : (pullDoc s d).parent_slug = d.parent_slug := rfl

lemma pullDoc_order (s : String) (d : Document) : (pullDoc s d).order = d.order := rfl

lemma pullDoc_hidden (s : String) (d : Document) : (pullDoc s d).is_hidden = d.is_hidden := rfl

lemma pullDoc_pullDoc (s : String) (d : Document) : pullDoc s (pullDoc s d) = pullDoc s d := by
  unfold pullDoc
  simp [filter_idem]

lemma addDoc_slug (s : String) (d : Document) : (addDoc s d).slug = d.slug := by
  unfold addDoc; split <;> rfl

lemma addDoc_links (s : String) (d : Document) : (addDoc s d).links_out = d.links_out := by
  unfold addDoc; split <;> rfl

lemma addDoc_parent (s : String) (d : Document) : (addDoc s d).parent_slug = d.parent_slug := by
  unfold addDoc; split <;> rfl

lemma addDoc_order (s : String) (d : Document) : (addDoc s d).order = d.order := by
  unfold addDoc; split <;> rfl

lemma addDoc_hidden (s : String) (d : Document) : (addDoc s d).is_hidden = d.is_hidden := by
  unfold addDoc; split <;> rfl

lemma addDoc_addDoc (s : String) (d : Document) : addDoc s (addDoc s d) = addDoc s d := by
  unfold addDoc
  by_cases h : s ∈ d.backlinks
  · simp [h]
  · simp [h]

/-- Membership in a pulled backlink list. -/
lemma mem_pullDoc_backlinks (s b : String) (d : Document) :
    b ∈ (pullDoc s d).backlinks ↔ b ∈ d.backlinks ∧ b ≠ s := by
  unfold pullDoc
  simp [List.mem_filter]

/-- Membership in an extended backlink list. -/
lemma mem_addDoc_backlinks (s b : String) (d : Document) :
    b ∈ (addDoc s d).backlinks ↔ b ∈ d.backlinks ∨ b = s := by
  unfold addDoc
  by_cases h : s ∈ d.backlinks
  · simp only [h, if_true]
    constructor
    · exact Or.inl
    · rintro (hb | rfl)
      · exact hb
      · exact h
  · simp [h, List.mem_append]

/-! ## `removed` / `added` set-difference lemmas -/

lemma mem_removedOf (t : String) (old_links new_links : List String) :
    t ∈ removedOf old_links new_links ↔ t ∈ old_links ∧ t ∉ new_links := by
  simp [removedOf, List.mem_filter]

lemma mem_addedOf (t : String) (old_links new_links : List String) :
    t ∈ addedOf old_links new_links ↔ t ∈ new_links ∧ t ∉ old_links := by
  simp [addedOf, List.mem_filter]

lemma removed_not_added {t : String} {old_links new_links : List String}
    (h : t ∈ removedOf old_links new_links) : t ∉ addedOf old_links new_links := by
  rw [mem_removedOf] at h
  rw [mem_addedOf]
  intro hc
  exact hc.2 h.1

lemma added_not_removed {t : String} {old_links new_links : List String}
    (h : t ∈ addedOf old_links new_links) : t ∉ removedOf old_links new_links := by
  rw [mem_addedOf] at h
  rw [mem_removedOf]
  intro hc
  exact h.2 hc.1

/-! ## `find_by_slug` / `updateFirst` interaction -/

lemma find_by_slug_some {t : String} {st : List Document} {d : Document}
    (h : find_by_slug t st = some d) : d ∈ st ∧ d.slug = t := by
  induction st with
  | nil => exact absurd h (by simp [find_by_slug])
  | cons x xs ih =>
    by_cases hx : x.slug = t
    · rw [find_by_slug, if_pos hx] at h
      cases h
      exact ⟨by simp, hx⟩
    · rw [find_by_slug, if_neg hx] at h
      obtain ⟨hm, hs⟩ := ih h
      exact ⟨by simp [hm], hs⟩

lemma find_by_slug_none {t : String} {st : List Document}
    (h : find_by_slug t st = none) : ∀ d ∈ st, d.slug ≠ t := by
  induction st with
  | nil => intro d hd; exact absurd hd (by simp)
  | cons x xs ih =>
    by_cases hx : x.slug = t
    · rw [find_by_slug, if_pos hx] at h
      exact absurd h (by simp)
    · rw [find_by_slug, if_neg hx] at h
      intro d hd
      rcases List.mem_cons.mp hd with rfl | hd'
      · exact hx
      · exact ih h d hd'

/-- Updating the first document with slug `t` rewrites the `t` lookup. -/
lemma find_updateFirst_same (t : String) (f : Document → Document)
    (hslug : ∀ d, (f d).slug = d.slug) (st : List Document) :
    find_by_slug t (updateFirst t f st) = (find_by_slug t st).map f := by
  induction st with
  | nil => rfl
  | cons d ds ih =>
    by_cases hd : d.slug = t
    · rw [updateFirst, if_pos hd, find_by_slug, find_by_slug,
        if_pos hd, if_pos (by rw [hslug d]; exact hd)]
      rfl
    · rw [updateFirst, if_neg hd, find_by_slug, find_by_slug, if_neg hd, if_neg hd, ih]

/-- Updating the first document with a different slug leaves the `t`
lookup unchanged. -/
lemma find_updateFirst_other (t u : String) (f : Document → Document)
    (hne : t ≠ u) (hslug : ∀ d, (f d).slug = d.slug) (st : List Document) :
    find_by_slug t (updateFirst u f st) = find_by_slug t st := by
  induction st with
  | nil => rfl
  | cons d ds ih =>
    by_cases hd : d.slug = u
    · have hdt : ¬d.slug = t := by rw [hd]; exact fun hc => hne hc.symm
      rw [updateFirst, if_pos hd, find_by_slug, find_by_slug, if_neg hdt,
        if_neg (by rw [hslug d]; exact hdt)]
    · by_cases hdt : d.slug = t
      · rw [updateFirst, if_neg hd, find_by_slug, find_by_slug, if_pos hdt, if_pos hdt]
      · rw [updateFirst, if_neg hd, find_by_slug, find_by_slug, if_neg hdt, if_neg hdt, ih]

/-- If `f` fixes the first document with slug `t`, `updateFirst` is the
identity. -/
lemma updateFirst_noop (t : String) (f : Document → Document) (st : List Document)
    (h : ∀ d, find_by_slug t st = some d → f d = d) : updateFirst t f st = st := by
  induction st with
  | nil => rfl
  | cons d ds ih =>
    by_cases hd : d.slug = t
    · rw [updateFirst, if_pos hd, h d (by rw [find_by_slug, if_pos hd])]
    · rw [updateFirst, if_neg hd,
        ih (fun d' hd' => h d' (by rw [find_by_slug, if_neg hd]; exact hd'))]

/-- Lookup after folding a slug-preserving idempotent per-document
update over a list of target slugs. -/
lemma fold_uf_find (f : Document → Document) (hslug : ∀ d, (f d).slug = d.slug)
    (hidem : ∀ d, f (f d) = f d) (ts : List String) :
    ∀ (st : List Document) (t : String),
      find_by_slug t (ts.foldl (fun acc u => updateFirst u f acc) st) =
        if t ∈ ts then (find_by_slug t st).map f else find_by_slug t st := by
  induction ts with
  | nil => intro st t; simp
  | cons u ts ih =>
    intro st t
    rw [List.foldl_cons, ih]
    by_cases htu : t = u
    · subst htu
      rw [find_updateFirst_same t f hslug st]
      by_cases ht : t ∈ ts
      · rw [if_pos ht, if_pos (by simp)]
        cases hf : find_by_slug t st with
        | none => rfl
        | some d => simp [hidem d]
      · rw [if_neg ht, if_pos (by simp)]
    · rw [find_updateFirst_other t u f htu hslug st]
      by_cases ht : t ∈ ts
      · rw [if_pos ht, if_pos (by simp [ht])]
      · rw [if_neg ht, if_neg (by simp [htu, ht])]

/-- Lookup characterisation of `update_backlinks`: the `t` entry is
pulled if `t` lost the link, extended if it gained the link, unchanged
otherwise. -/
lemma find_update_backlinks (s : String) (old_links new_links : List String)
    (st : List Document) (t : String) :
    find_by_slug t (update_backlinks s old_links new_links st) =
      if t ∈ removedOf old_links new_links then (find_by_slug t st).map (pullDoc s)
      else if t ∈ addedOf old_links new_links then (find_by_slug t st).map (addDoc s)
      else find_by_slug t st := by
  unfold update_backlinks
  rw [fold_uf_find (addDoc s) (addDoc_slug s) (addDoc_addDoc s),
    fold_uf_find (pullDoc s) (pullDoc_slug s) (pullDoc_pullDoc s)]
  by_cases hr : t ∈ removedOf old_links new_links
  · simp [hr, removed_not_added hr]
  · by_cases ha : t ∈ addedOf old_links new_links <;> simp [hr, ha]

/-! ## `create_or_update` lemmas -/

lemma cu_mem {x dd : Document} {st : List Document}
    (h : x ∈ create_or_update dd st) : x = dd ∨ x ∈ st := by
  induction st with
  | nil =>
    rw [create_or_update] at h
    rcases List.mem_singleton.mp h with rfl
    exact Or.inl rfl
  | cons d ds ih =>
    by_cases hd : d.slug = dd.slug
    · rw [create_or_update, if_pos hd] at h
      rcases List.mem_cons.mp h with rfl | h'
      · exact Or.inl rfl
      · exact Or.inr (by simp [h'])
    · rw [create_or_update, if_neg hd] at h
      rcases List.mem_cons.mp h with rfl | h'
      · exact Or.inr (by simp)
      · rcases ih h' with h'' | h''
        · exact Or.inl h''
        · exact Or.inr (by simp [h''])

lemma cu_self_mem (dd : Document) (st : List Document) : dd ∈ create_or_update dd st := by
  induction st with
  | nil => simp [create_or_update]
  | cons d ds ih =>
    by_cases hd : d.slug = dd.slug
    · rw [create_or_update, if_pos hd]
      simp
    · rw [create_or_update, if_neg hd]
      simp [ih]

lemma cu_mem_of {y dd : Document} {st : List Document}
    (hy : y ∈ st) (hne : y.slug ≠ dd.slug) : y ∈ create_or_update dd st := by
  induction st with
  | nil => exact absurd hy (by simp)
  | cons d ds ih =>
    by_cases hd : d.slug = dd.slug
    · rw [create_or_update, if_pos hd]
      rcases List.mem_cons.mp hy with rfl | hy'
      · exact absurd hd hne
      · simp [hy']
    · rw [create_or_update, if_neg hd]
      rcases List.mem_cons.mp hy with rfl | hy'
      · simp
      · simp [ih hy']

/-- Replacing an existing slug does not change the slug list. -/
lemma cu_slugs_mem {dd : Document} {st : List Document}
    (h : dd.slug ∈ slugsOf st) : slugsOf (create_or_update dd st) = slugsOf st := by
  induction st with
  | nil => exact absurd h (by simp [slugsOf])
  | cons d ds ih =>
    by_cases hd : d.slug = dd.slug
    · rw [create_or_update, if_pos hd]
      simp [slugsOf, hd]
    · rw [create_or_update, if_neg hd]
      have h' : dd.slug ∈ slugsOf ds := by
        rcases List.mem_cons.mp h with h'' | h''
        · exact absurd h''.symm hd
        · exact h''
      have hrec := ih h'
      unfold slugsOf at hrec ⊢
      rw [List.map_cons, List.map_cons, hrec]

/-- Upserting an absent slug appends the new document. -/
lemma cu_append {dd : Document} {st : List Document}
    (h : ∀ d ∈ st, d.slug ≠ dd.slug) : create_or_update dd st = st ++ [dd] := by
  induction st with
  | nil => rfl
  | cons d ds ih =>
    rw [create_or_update, if_neg (h d (by simp)), ih (fun d' hd' => h d' (by simp [hd']))]
    rfl

/-- The upserted document is what a subsequent lookup of its slug finds. -/
lemma cu_find_self (dd : Document) (st : List Document) :
    find_by_slug dd.slug (create_or_update dd st) = some dd := by
  induction st with
  | nil => simp [create_or_update, find_by_slug]
  | cons d ds ih =>
    by_cases hd : d.slug = dd.slug
    · rw [create_or_update, if_pos hd, find_by_slug, if_pos rfl]
    · rw [create_or_update, if_neg hd, find_by_slug, if_neg hd, ih]

/-! ## Slug-uniqueness and the map characterisation of `update_backlinks` -/

/-- With pairwise-distinct slugs, equality of slugs forces equality of
documents. -/
lemma slug_unique {st : List Document} (hnd : SlugsNodup st) :
    ∀ y ∈ st, ∀ z ∈ st, y.slug = z.slug → y = z := by
  induction st with
  | nil => intro y hy; exact absurd hy (by simp)
  | cons d ds ih =>
    have hnd' : (slugsOf ds).Nodup ∧ d.slug ∉ slugsOf ds := by
      have := hnd
      unfold SlugsNodup slugsOf at this
      rw [List.map_cons, List.nodup_cons] at this
      exact ⟨this.2, this.1⟩
    intro y hy z hz he
    rcases List.mem_cons.mp hy with rfl | hy' <;> rcases List.mem_cons.mp hz with rfl | hz'
    · rfl
    · exact absurd (he ▸ List.mem_map_of_mem Document.slug hz') hnd'.2
    · exact absurd (he ▸ List.mem_map_of_mem Document.slug hy') hnd'.2
    · exact ih hnd'.1 y hy' z hz' he

/-- Slug lists are invariant under slug-preserving maps. -/
lemma slugsOf_map (st : List Document) (g : Document → Document)
    (h : ∀ d, (g d).slug = d.slug) : slugsOf (st.map g) = slugsOf st := by
  unfold slugsOf
  rw [List.map_map]
  exact map_congr_mem st _ _ (fun d _ => h d)

/-- With unique slugs, updating the first match is a pointwise map. -/
lemma updateFirst_eq_map (t : String) (f : Document → Document) (st : List Document)
    (hnd : SlugsNodup st) :
    updateFirst t f st = st.map (fun d => if d.slug = t then f d else d) := by
  induction st with
  | nil => rfl
  | cons d ds ih =>
    have hnd' : (slugsOf ds).Nodup ∧ d.slug ∉ slugsOf ds := by
      have := hnd
      unfold SlugsNodup slugsOf at this
      rw [List.map_cons, List.nodup_cons] at this
      exact ⟨this.2, this.1⟩
    by_cases hd : d.slug = t
    · rw [updateFirst, if_pos hd, List.map_cons, if_pos hd]
      have : ds.map (fun x => if x.slug = t then f x else x) = ds := by
        apply map_noop
        intro x hx
        have hxt : x.slug ≠ t := by
          intro hc
          exact hnd'.2 (hd ▸ hc ▸ List.mem_map_of_mem Document.slug hx)
        rw [if_neg hxt]
      rw [this]
    · rw [updateFirst, if_neg hd, List.map_cons, if_neg hd, ih hnd'.1]

/-- With unique slugs, folding a slug-preserving idempotent update over
target slugs is a pointwise map guarded by membership. -/
lemma fold_uf_eq_map (f : Document → Document) (hslug : ∀ d, (f d).slug = d.slug)
    (hidem : ∀ d, f (f d) = f d) (ts : List String) :
    ∀ st : List Document, SlugsNodup st →
      ts.foldl (fun acc u => updateFirst u f acc) st =
        st.map (fun d => if d.slug ∈ ts then f d else d) := by
  induction ts with
  | nil =>
    intro st _
    simp
  | cons u ts ih =>
    intro st hnd
    have hg1 : ∀ d, ((fun x => if x.slug = u then f x else x) d).slug = d.slug := by
      intro d
      by_cases hd : d.slug = u <;> simp [hd, hslug d]
    have hnd2 : SlugsNodup (st.map (fun d => if d.slug = u then f d else d)) := by
      unfold SlugsNodup
      rw [slugsOf_map st _ hg1]
      exact hnd
    rw [List.foldl_cons, updateFirst_eq_map u f st hnd, ih _ hnd2, List.map_map]
    apply map_congr_mem
    intro d _
    simp only [Function.comp]
    by_cases hdu : d.slug = u
    · rw [if_pos hdu]
      by_cases hut : u ∈ ts
      · rw [if_pos (by rw [hslug d, hdu]; exact hut), hidem d,
          if_pos (by rw [hdu]; exact List.mem_cons_self u ts)]
      · rw [if_neg (by rw [hslug d, hdu]; exact hut),
          if_pos (by rw [hdu]; exact List.mem_cons_self u ts)]
    · rw [if_neg hdu]
      by_cases hdt : d.slug ∈ ts
      · rw [if_pos hdt, if_pos (List.mem_cons_of_mem u hdt)]
      · rw [if_neg hdt, if_neg (by simp [hdu, hdt])]

lemma applyDelta_slug (source : String) (removed added : List String) (d : Document) :
    (applyDelta source removed added d).slug = d.slug := by
  unfold applyDelta
  split
  · rfl
  · split
    · exact addDoc_slug source d
    · rfl

lemma applyDelta_links (source : String) (removed added : List String) (d : Document) :
    (applyDelta source removed added d).links_out = d.links_out := by
  unfold applyDelta
  split
  · rfl
  · split
    · exact addDoc_links source d
    · rfl

/-- With unique slugs, `update_backlinks` is the pointwise application
of the backlink delta. -/
lemma update_backlinks_eq_map (s : String) (old_links new_links : List String)
    (st : List Document) (hnd : SlugsNodup st) :
    update_backlinks s old_links new_links st =
      st.map (applyDelta s (removedOf old_links new_links) (addedOf old_links new_links)) := by
  unfold update_backlinks
  rw [fold_uf_eq_map (pullDoc s) (pullDoc_slug s) (pullDoc_pullDoc s) _ st hnd]
  have hgr : ∀ d, ((fun x => if x.slug ∈ removedOf old_links new_links then pullDoc s x else x) d).slug = d.slug := by
    intro d
    by_cases hd : d.slug ∈ removedOf old_links new_links <;> simp [hd, pullDoc_slug]
  have hnd2 : SlugsNodup (st.map (fun d => if d.slug ∈ removedOf old_links new_links then pullDoc s d else d)) := by
    unfold SlugsNodup
    rw [slugsOf_map st _ hgr]
    exact hnd
  rw [fold_uf_eq_map (addDoc s) (addDoc_slug s) (addDoc_addDoc s) _ _ hnd2, List.map_map]
  apply map_congr_mem
  intro d _
  simp only [Function.comp]
  unfold applyDelta
  by_cases hr : d.slug ∈ removedOf old_links new_links
  · rw [if_pos hr, if_pos hr, if_neg (by rw [pullDoc_slug]; exact removed_not_added hr)]
  · rw [if_neg hr, if_neg hr]

/-! ## Reductions of `process_ingest` -/

/-- With no faults, the pipeline after validation performs the blob
write, the upsert and the backlink propagation on the repository. -/
lemma ingestChecked_noFaults_repo (md : MarkdownLib) (hs : Bool) (w : World)
    (req : IngestRequest) (lvl : AccessLevel) (now : Nat) :
    (ingestChecked md hs noFaults w req lvl now).world.repo =
      update_backlinks req.slug
        (((find_by_slug req.slug w.repo).map Document.links_out).getD [])
        (extract_internal_links (md.linkUrls req.content))
        (create_or_update
          (buildDoc (find_by_slug req.slug w.repo) req lvl
            (extract_internal_links (md.linkUrls req.content)) now) w.repo) := by
  cases hs <;> rfl

/-- With no faults, the pipeline after validation succeeds. -/
lemma ingestChecked_noFaults_result (md : MarkdownLib) (hs : Bool) (w : World)
    (req : IngestRequest) (lvl : AccessLevel) (now : Nat) :
    (ingestChecked md hs noFaults w req lvl now).result =
      Except.ok ⟨"Document ingested successfully", req.slug, s3_key_of req.slug⟩ := by
  cases hs <;> rfl

/-- A request passing authentication and validation reaches the main
pipeline. -/
lemma process_ingest_valid (md : MarkdownLib) (hs : Bool) (fl : Faults) (w : World)
    (req : IngestRequest) (tok : String) (now : Nat) (lvl : AccessLevel)
    (htok : req.service_token = tok) (hslug : req.slug ≠ "")
    (hlvl : AccessLevel.from_str_ci req.access_level = some lvl) :
    process_ingest md hs fl w req tok now = ingestChecked md hs fl w req lvl now := by
  unfold process_ingest
  rw [if_neg (fun hc => hc htok), if_neg hslug, hlvl]

/-- A successful call had a matching token, a non-empty slug and a
parsable access level. -/
lemma process_ingest_ok_inputs (md : MarkdownLib) (hs : Bool) (fl : Faults) (w : World)
    (req : IngestRequest) (tok : String) (now : Nat) (r : IngestResponse)
    (h : (process_ingest md hs fl w req tok now).result = Except.ok r) :
    req.service_token = tok ∧ req.slug ≠ "" ∧
      ∃ lvl, AccessLevel.from_str_ci req.access_level = some lvl := by
  unfold process_ingest at h
  by_cases h1 : req.service_token ≠ tok
  · rw [if_pos h1] at h
    exact absurd h (by simp)
  · rw [if_neg h1] at h
    by_cases h2 : req.slug = ""
    · rw [if_pos h2] at h
      exact absurd h (by simp)
    · rw [if_neg h2] at h
      rcases hlvl : AccessLevel.from_str_ci req.access_level with _ | lvl
      · rw [hlvl] at h
        exact absurd h (by simp)
      · exact ⟨not_not.mp h1, h2, lvl, rfl⟩

/-- The repository left by a successful no-fault ingest. -/
lemma process_ingest_ok_world (md : MarkdownLib) (hs : Bool) (w : World)
    (req : IngestRequest) (tok : String) (now : Nat) (r : IngestResponse)
    (h : (process_ingest md hs noFaults w req tok now).result = Except.ok r) :
    ∃ lvl, (process_ingest md hs noFaults w req tok now).world.repo =
      update_backlinks req.slug
        (((find_by_slug req.slug w.repo).map Document.links_out).getD [])
        (extract_internal_links (md.linkUrls req.content))
        (create_or_update
          (buildDoc (find_by_slug req.slug w.repo) req lvl
            (extract_internal_links (md.linkUrls req.content)) now) w.repo) := by
  obtain ⟨htok, hslug, lvl, hlvl⟩ := process_ingest_ok_inputs md hs noFaults w req tok now r h
  refine ⟨lvl, ?_⟩
  rw [process_ingest_valid md hs noFaults w req tok now lvl htok hslug hlvl,
    ingestChecked_noFaults_repo]

/-! ## The extraction loop yields no duplicates -/

lemma extractLoop_nodup : ∀ (urls acc : List String), acc.Nodup → (extractLoop urls acc).Nodup := by
  intro urls
  induction urls with
  | nil => intro acc h; exact h
  | cons u rest ih =>
    intro acc h
    show (extractLoop (u :: rest) acc).Nodup
    rw [extractLoop]
    by_cases hi : is_internal_link u = true
    · rw [if_pos hi]
      by_cases hc : normalize_link u ≠ "" ∧ normalize_link u ∉ acc
      · rw [if_pos hc]
        apply ih
        rw [List.nodup_append]
        exact ⟨h, List.nodup_singleton _,
          fun a ha hb => hc.2 ((List.mem_singleton.mp hb) ▸ ha)⟩
      · rw [if_neg hc]
        exact ih acc h
    · rw [if_neg hi]
      exact ih acc h

/-! ## Injectivity of the slash replacement on underscore-free slugs -/

lemma repl_map_inj : ∀ l1 l2 : List Char, '_' ∉ l1 → '_' ∉ l2 →
    l1.map (fun c => if c = '/' then '_' else c) =
      l2.map (fun c => if c = '/' then '_' else c) → l1 = l2 := by
  intro l1
  induction l1 with
  | nil =>
    intro l2 _ _ h
    cases l2 with
    | nil => rfl
    | cons b l2 => exact absurd h (by simp)
  | cons a l1 ih =>
    intro l2 h1 h2 h
    cases l2 with
    | nil => exact absurd h (by simp)
    | cons b l2 =>
      simp only [List.map_cons, List.cons.injEq] at h
      have ha : a ≠ '_' := fun hc => h1 (by simp [hc])
      have hb : b ≠ '_' := fun hc => h2 (by simp [hc])
      have hab : a = b := by
        rcases h with ⟨hh, _⟩
        by_cases ca : a = '/' <;> by_cases cb : b = '/'
        · rw [ca, cb]
        · rw [if_pos ca, if_neg cb] at hh
          exact absurd hh.symm hb
        · rw [if_neg ca, if_pos cb] at hh
          exact absurd hh ha
        · rw [if_neg ca, if_neg cb] at hh
          exact hh
      rw [hab, ih l2 (fun hc => h1 (by simp [hc])) (fun hc => h2 (by simp [hc])) h.2]

/-! ## The ingestion step preserves the soundness invariant -/

/-- One successful ingest of document `dd` (whose outgoing links are
`new_links` and whose backlinks are carried over from the old document)
preserves slug uniqueness and backlink soundness. -/
lemma step_inv (st : List Document) (dd : Document) (new_links : List String)
    (hlinks : dd.links_out = new_links)
    (hbl : dd.backlinks = ((find_by_slug dd.slug st).map Document.backlinks).getD [])
    (hnd : SlugsNodup st) (hsnd : BacklinkSound st) :
    SlugsNodup (update_backlinks dd.slug
        (((find_by_slug dd.slug st).map Document.links_out).getD []) new_links
        (create_or_update dd st))
    ∧ BacklinkSound (update_backlinks dd.slug
        (((find_by_slug dd.slug st).map Document.links_out).getD []) new_links
        (create_or_update dd st)) := by
  set old_links := ((find_by_slug dd.slug st).map Document.links_out).getD [] with hold
  have hnd1 : SlugsNodup (create_or_update dd st) := by
    cases hF : find_by_slug dd.slug st with
    | some od =>
      have hodm := find_by_slug_some hF
      have hmem : dd.slug ∈ slugsOf st := by
        rw [← hodm.2]
        exact List.mem_map_of_mem Document.slug hodm.1
      unfold SlugsNodup
      rw [cu_slugs_mem hmem]
      exact hnd
    | none =>
      have hall := find_by_slug_none hF
      unfold SlugsNodup
      rw [cu_append hall]
      unfold slugsOf
      rw [List.map_append, List.nodup_append]
      refine ⟨hnd, List.nodup_singleton _, ?_⟩
      intro a ha hb
      rcases List.mem_map.mp ha with ⟨d, hdm, rfl⟩
      exact hall d hdm (List.mem_singleton.mp hb)
  have heq := update_backlinks_eq_map dd.slug old_links new_links (create_or_update dd st) hnd1
  constructor
  · unfold SlugsNodup
    rw [heq, slugsOf_map _ _ (applyDelta_slug dd.slug _ _)]
    exact hnd1
  · rw [heq]
    intro x' hx' s hs'
    obtain ⟨xh, hxh, rfl⟩ := List.mem_map.mp hx'
    have haux : xh.slug ∈ removedOf old_links new_links → s ≠ dd.slug := by
      intro hri hcs
      have hformb : (applyDelta dd.slug (removedOf old_links new_links)
          (addedOf old_links new_links) xh).backlinks
          = (pullDoc dd.slug xh).backlinks := by
        unfold applyDelta
        rw [if_pos hri]
      rw [hformb, mem_pullDoc_backlinks] at hs'
      exact hs'.2 hcs
    have hcase : s ∈ xh.backlinks ∨ (s = dd.slug ∧ xh.slug ∈ addedOf old_links new_links) := by
      unfold applyDelta at hs'
      by_cases hri : xh.slug ∈ removedOf old_links new_links
      · rw [if_pos hri] at hs'
        exact Or.inl ((mem_pullDoc_backlinks _ _ _).mp hs').1
      · rw [if_neg hri] at hs'
        by_cases hai : xh.slug ∈ addedOf old_links new_links
        · rw [if_pos hai] at hs'
          rcases (mem_addDoc_backlinks _ _ _).mp hs' with hbm | rfl
          · exact Or.inl hbm
          · exact Or.inr ⟨rfl, hai⟩
        · rw [if_neg hai] at hs'
          exact Or.inl hs'
    rcases hcase with hsb | ⟨rfl, hai⟩
    · -- the backlink came from the old state
      have horig : ∃ x ∈ st, x.slug = xh.slug ∧ s ∈ x.backlinks := by
        rcases cu_mem hxh with rfl | hxst
        · cases hF : find_by_slug xh.slug st with
          | none =>
            rw [hbl, hF] at hsb
            exact absurd hsb (by simp)
          | some od =>
            have hodm := find_by_slug_some hF
            refine ⟨od, hodm.1, hodm.2, ?_⟩
            rw [hbl, hF] at hsb
            exact hsb
        · exact ⟨xh, hxst, rfl, hsb⟩
      obtain ⟨x, hx, hxs, hxb⟩ := horig
      by_cases hsdd : s = dd.slug
      · subst hsdd
        obtain ⟨y, hy, hys, hyl⟩ := hsnd x hx dd.slug hxb
        cases hF : find_by_slug dd.slug st with
        | none => exact absurd hys (find_by_slug_none hF y hy)
        | some od =>
          have hodm := find_by_slug_some hF
          have hyod : y = od := slug_unique hnd y hy od hodm.1 (by rw [hys, hodm.2])
          have hxold : x.slug ∈ old_links := by
            rw [hold, hF]
            simp only [Option.map_some', Option.getD_some]
            rw [← hyod]
            exact hyl
          by_cases hxn : x.slug ∈ new_links
          · -- witnessed by the freshly upserted document
            refine ⟨applyDelta dd.slug (removedOf old_links new_links)
                (addedOf old_links new_links) dd,
              List.mem_map_of_mem _ (cu_self_mem dd st), ?_, ?_⟩
            · rw [applyDelta_slug]
            · rw [applyDelta_links, hlinks, applyDelta_slug, ← hxs]
              exact hxn
          · exact absurd rfl (haux (by
              rw [mem_removedOf]
              exact ⟨by rw [← hxs]; exact hxold, by rw [← hxs]; exact hxn⟩))
      · -- witnessed by the surviving old witness
        obtain ⟨y, hy, hys, hyl⟩ := hsnd x hx s hxb
        refine ⟨applyDelta dd.slug (removedOf old_links new_links)
            (addedOf old_links new_links) y,
          List.mem_map_of_mem _ (cu_mem_of hy (by rw [hys]; exact hsdd)), ?_, ?_⟩
        · rw [applyDelta_slug]
          exact hys
        · rw [applyDelta_links, applyDelta_slug, ← hxs]
          exact hyl
    · -- the backlink was just added: the source is the new document
      refine ⟨applyDelta dd.slug (removedOf old_links new_links)
          (addedOf old_links new_links) dd,
        List.mem_map_of_mem _ (cu_self_mem dd st), ?_, ?_⟩
      · rw [applyDelta_slug]
      · rw [applyDelta_links, hlinks, applyDelta_slug]
        exact ((mem_addedOf _ _ _).mp hai).1

/-- Lookup after `update_backlinks` finds a document whose hierarchy
fields (and everything except backlinks) are unchanged. -/
lemma find_ubl_fields (s : String) (ol nl : List String) (st : List Document) (t : String)
    (d : Document) (h : find_by_slug t st = some d) :
    ∃ d', find_by_slug t (update_backlinks s ol nl st) = some d'
      ∧ d'.parent_slug = d.parent_slug ∧ d'.order = d.order ∧ d'.is_hidden = d.is_hidden := by
  rw [find_update_backlinks]
  by_cases hr : t ∈ removedOf ol nl
  · rw [if_pos hr, h]
    exact ⟨pullDoc s d, rfl, rfl, rfl, rfl⟩
  · by_cases ha : t ∈ addedOf ol nl
    · rw [if_neg hr, if_pos ha, h]
      exact ⟨addDoc s d, rfl, addDoc_parent s d, addDoc_order s d, addDoc_hidden s d⟩
    · rw [if_neg hr, if_neg ha, h]
      exact ⟨d, rfl, rfl, rfl, rfl⟩

/-! ## Claims -/

/-- Claim C1, counterexample: for a request that passes authentication
and validation, whose blob write and metadata upsert succeed, a failing
`update_backlinks` makes `process_ingest` return that failure (the `?`
operator propagates it), even though the document and the blob were
durably stored.  The claim that the caller is still told ingestion
succeeded is false. -/
theorem c1_counterexample :
    (process_ingest mdX false flB w0 reqA "t" 1).result
        = Except.error (AppError.Database "boom")
    ∧ (process_ingest mdX false flB w0 reqA "t" 1).world.repo = [docA2]
    ∧ (process_ingest mdX false flB w0 reqA "t" 1).world.blob = [("docs/a.md", "body-a")] := by
  refine ⟨by decide, by decide, by decide⟩

/-- Claim C1, amended: when the backlink-propagation step fails, the
blob write and the metadata upsert are kept (no rollback), but the
failure is propagated: the overall call returns the backlink error
instead of success. -/
theorem c1_backlink_failure_propagates (md : MarkdownLib) (hs : Bool) (w : World)
    (req : IngestRequest) (tok : String) (now : Nat) (msg : String) (lvl : AccessLevel)
    (htok : req.service_token = tok) (hslug : req.slug ≠ "")
    (hlvl : AccessLevel.from_str_ci req.access_level = some lvl) :
    (process_ingest md hs ⟨none, none, none, some msg, none⟩ w req tok now).result
        = Except.error (AppError.Database msg)
    ∧ (process_ingest md hs ⟨none, none, none, some msg, none⟩ w req tok now).world.repo
        = create_or_update (buildDoc (find_by_slug req.slug w.repo) req lvl
            (extract_internal_links (md.linkUrls req.content)) now) w.repo
    ∧ (process_ingest md hs ⟨none, none, none, some msg, none⟩ w req tok now).world.blob
        = putBlob (s3_key_of req.slug) req.content w.blob := by
  rw [process_ingest_valid md hs _ w req tok now lvl htok hslug hlvl]
  exact ⟨rfl, rfl, rfl⟩

/-- Witness for the amended C1 at a concrete request. -/
theorem c1_witness :
    (reqA.service_token = "t" ∧ reqA.slug ≠ ""
      ∧ AccessLevel.from_str_ci reqA.access_level = some AccessLevel.Public)
    ∧ ((process_ingest mdX false ⟨none, none, none, some "boom", none⟩ w0 reqA "t" 1).result
        = Except.error (AppError.Database "boom")
      ∧ (process_ingest mdX false ⟨none, none, none, some "boom", none⟩ w0 reqA "t" 1).world.repo
          = create_or_update (buildDoc (find_by_slug reqA.slug w0.repo) reqA AccessLevel.Public
              (extract_internal_links (mdX.linkUrls reqA.content)) 1) w0.repo
      ∧ (process_ingest mdX false ⟨none, none, none, some "boom", none⟩ w0 reqA "t" 1).world.blob
          = putBlob (s3_key_of reqA.slug) reqA.content w0.blob) :=
  ⟨⟨rfl, by decide, by decide⟩,
    c1_backlink_failure_propagates mdX false w0 reqA "t" 1 "boom" AccessLevel.Public
      rfl (by decide) (by decide)⟩

/-- Claim C2, counterexample: the full backlink-derivation invariant
fails on reachable states.  Ingest `a` (whose body links to the absent
`b`), then ingest `b`: the stored `b` has no backlinks although `a`'s
links_out contains `b`. -/
theorem c2_counterexample :
    ¬ ∀ (md : MarkdownLib) (hs : Bool) (tok : String) (w : World),
        Reachable md hs tok w → BacklinkDerived w.repo := by
  intro hcl
  have h1 : Reachable mdX false "t" w1 :=
    Reachable.step w0 reqA 1 ⟨"Document ingested successfully", "a", "docs/a.md"⟩
      Reachable.empty (by decide)
  have h2 : Reachable mdX false "t" w2 :=
    Reachable.step w1 reqB 2 ⟨"Document ingested successfully", "b", "docs/b.md"⟩
      h1 (by decide)
  have h3 := hcl mdX false "t" w2 h2
  unfold BacklinkDerived at h3
  have hmem : docB2 ∈ w2.repo := by decide
  have hin : "a" ∈ docB2.backlinks :=
    (h3 docB2 hmem "a").mpr ⟨docA2, by decide, by decide, by decide⟩
  exact absurd hin (by decide)

/-- Claim C2, amended: in every state reachable from the empty state
by successful ingest operations, slugs are unique and the backlinks are
sound: every stored backlink of X comes from a stored document Y with
X.slug in Y.links_out.  The reverse inclusion (and hence equality)
fails when a document is linked before it is first ingested. -/
theorem c2_backlinks_sound (md : MarkdownLib) (hs : Bool) (tok : String) (w : World)
    (h : Reachable md hs tok w) : SlugsNodup w.repo ∧ BacklinkSound w.repo := by
  induction h with
  | empty =>
    constructor
    · unfold SlugsNodup slugsOf
      simp
    · intro x hx
      exact absurd hx (by simp)
  | step w req now r hw hok ih =>
    obtain ⟨lvl, hrepo⟩ := process_ingest_ok_world md hs w req tok now r hok
    rw [hrepo]
    exact step_inv w.repo
      (buildDoc (find_by_slug req.slug w.repo) req lvl
        (extract_internal_links (md.linkUrls req.content)) now)
      (extract_internal_links (md.linkUrls req.content)) rfl rfl ih.1 ih.2

/-- Witness for the amended C2 on the concrete two-step reachable
state. -/
theorem c2_witness : SlugsNodup w2.repo ∧ BacklinkSound w2.repo := by
  have h1 : Reachable mdX false "t" w1 :=
    Reachable.step w0 reqA 1 ⟨"Document ingested successfully", "a", "docs/a.md"⟩
      Reachable.empty (by decide)
  have h2 : Reachable mdX false "t" w2 :=
    Reachable.step w1 reqB 2 ⟨"Document ingested successfully", "b", "docs/b.md"⟩
      h1 (by decide)
  exact c2_backlinks_sound mdX false "t" w2 h2

/-- Claim C3, counterexample: the storage-key derivation is not
injective on distinct non-empty slugs — a slash/underscore swap
collides. -/
theorem c3_counterexample :
    s3_key_of "a/b" = s3_key_of "a_b" ∧ ("a/b" : String) ≠ "a_b"
    ∧ ("a/b" : String) ≠ "" ∧ ("a_b" : String) ≠ "" := by
  refine ⟨by decide, by decide, by decide, by decide⟩

/-- Claim C3, amended: the key derivation is deterministic (it is a
function of the slug: `docs/` ++ slug with `/` replaced by `_` ++
`.md`) and injective on slugs that contain no underscore; distinct
slugs can collide only through the slash/underscore replacement. -/
theorem c3_key_injective (s1 s2 : String) (h1 : '_' ∉ s1.data) (h2 : '_' ∉ s2.data)
    (hk : s3_key_of s1 = s3_key_of s2) : s1 = s2 := by
  have hdata : "docs/".data ++ s1.data.map (fun c => if c = '/' then '_' else c) ++ ".md".data
      = "docs/".data ++ s2.data.map (fun c => if c = '/' then '_' else c) ++ ".md".data :=
    congrArg String.data hk
  rw [List.append_assoc, List.append_assoc] at hdata
  have hmid := List.append_cancel_right (List.append_cancel_left hdata)
  have hd : s1.data = s2.data := repl_map_inj s1.data s2.data h1 h2 hmid
  cases s1 with
  | mk d1 =>
    cases s2 with
    | mk d2 => exact congrArg String.mk hd

/-- Witness for the amended C3. -/
theorem c3_witness :
    ('_' ∉ "x/y".data ∧ s3_key_of "x/y" = s3_key_of "x/y") ∧ ("x/y" : String) = "x/y" :=
  ⟨⟨by decide, rfl⟩, c3_key_injective "x/y" "x/y" (by decide) (by decide) rfl⟩

/-- Claim C4: `update_backlinks` computes `removed = old − new` and
`added = new − old` and accordingly removes the source slug from a
removed target's backlinks, adds it without duplicates to an added
target's backlinks, and leaves targets in both or neither untouched. -/
theorem c4_reconcile_delta (s : String) (old_links new_links : List String)
    (st : List Document) (t : String) (d : Document)
    (h : find_by_slug t st = some d) :
    ∃ d', find_by_slug t (update_backlinks s old_links new_links st) = some d'
      ∧ (t ∈ old_links → t ∉ new_links →
          d'.backlinks = d.backlinks.filter (fun b => !decide (b = s)))
      ∧ (t ∈ new_links → t ∉ old_links →
          d'.backlinks = (if s ∈ d.backlinks then d.backlinks else d.backlinks ++ [s]))
      ∧ ((t ∈ old_links ↔ t ∈ new_links) → d' = d) := by
  by_cases hr : t ∈ removedOf old_links new_links
  · refine ⟨pullDoc s d, ?_, fun _ _ => rfl, ?_, ?_⟩
    · rw [find_update_backlinks, if_pos hr, h]
      rfl
    · intro hn ho
      exact absurd ((mem_removedOf t old_links new_links).mp hr).1 ho
    · intro hiff
      rcases (mem_removedOf t old_links new_links).mp hr with ⟨ho, hn⟩
      exact absurd (hiff.mp ho) hn
  · by_cases ha : t ∈ addedOf old_links new_links
    · refine ⟨addDoc s d, ?_, ?_, ?_, ?_⟩
      · rw [find_update_backlinks, if_neg hr, if_pos ha, h]
        rfl
      · intro ho hn
        exact absurd ((mem_addedOf t old_links new_links).mp ha).1 hn
      · intro _ _
        unfold addDoc
        split <;> rfl
      · intro hiff
        rcases (mem_addedOf t old_links new_links).mp ha with ⟨hn, ho⟩
        exact absurd (hiff.mpr hn) ho
    · refine ⟨d, ?_, ?_, ?_, fun _ => rfl⟩
      · rw [find_update_backlinks, if_neg hr, if_neg ha, h]
      · intro ho hn
        exact absurd ((mem_removedOf t old_links new_links).mpr ⟨ho, hn⟩) hr
      · intro hn ho
        exact absurd ((mem_addedOf t old_links new_links).mpr ⟨hn, ho⟩) ha

/-- Witness for C4 at the specification's `old={a,b}`, `new={b,c}`
example. -/
theorem c4_witness :
    find_by_slug "a" [dA0, dB0, dC0] = some dA0
    ∧ ∃ d', find_by_slug "a" (update_backlinks "s" ["a", "b"] ["b", "c"] [dA0, dB0, dC0])
        = some d'
      ∧ ("a" ∈ ["a", "b"] → "a" ∉ ["b", "c"] →
          d'.backlinks = dA0.backlinks.filter (fun b => !decide (b = "s")))
      ∧ ("a" ∈ ["b", "c"] → "a" ∉ ["a", "b"] →
          d'.backlinks = (if "s" ∈ dA0.backlinks then dA0.backlinks else dA0.backlinks ++ ["s"]))
      ∧ (("a" ∈ ["a", "b"] ↔ "a" ∈ ["b", "c"]) → d' = dA0) :=
  ⟨rfl, c4_reconcile_delta "s" ["a", "b"] ["b", "c"] [dA0, dB0, dC0] "a" dA0 rfl⟩

/-- Claim C5: `update_backlinks` is idempotent: applying the same
`(source, old, new)` twice to any repository state equals applying it
once. -/
theorem c5_reconcile_idempotent (s : String) (old_links new_links : List String)
    (st : List Document) :
    update_backlinks s old_links new_links (update_backlinks s old_links new_links st)
      = update_backlinks s old_links new_links st := by
  have hpull : ∀ t ∈ removedOf old_links new_links,
      updateFirst t (pullDoc s) (update_backlinks s old_links new_links st)
        = update_backlinks s old_links new_links st := by
    intro t ht
    apply updateFirst_noop
    intro d hd
    rw [find_update_backlinks, if_pos ht] at hd
    obtain ⟨d0, _, rfl⟩ := Option.map_eq_some'.mp hd
    exact pullDoc_pullDoc s d0
  have hadd : ∀ t ∈ addedOf old_links new_links,
      updateFirst t (addDoc s) (update_backlinks s old_links new_links st)
        = update_backlinks s old_links new_links st := by
    intro t ht
    apply updateFirst_noop
    intro d hd
    rw [find_update_backlinks, if_neg (added_not_removed ht), if_pos ht] at hd
    obtain ⟨d0, _, rfl⟩ := Option.map_eq_some'.mp hd
    exact addDoc_addDoc s d0
  show (addedOf old_links new_links).foldl (fun acc t => updateFirst t (addDoc s) acc)
      ((removedOf old_links new_links).foldl (fun acc t => updateFirst t (pullDoc s) acc)
        (update_backlinks s old_links new_links st))
    = update_backlinks s old_links new_links st
  rw [foldl_fixed (fun acc t => updateFirst t (pullDoc s) acc)
    (update_backlinks s old_links new_links st) (removedOf old_links new_links) hpull]
  exact foldl_fixed (fun acc t => updateFirst t (addDoc s) acc)
    (update_backlinks s old_links new_links st) (addedOf old_links new_links) hadd

/-- Claim C6: `extract_internal_links` strips anchors and the document
root and deduplicates: a body whose references are exactly
`/docs/alpha` and `/docs/alpha#frag` (in either order) yields exactly
`[alpha]`, and extraction never produces duplicates. -/
theorem c6_extract_dedup_anchor :
    extract_internal_links ["/docs/alpha", "/docs/alpha#frag"] = ["alpha"]
    ∧ extract_internal_links ["/docs/alpha#frag", "/docs/alpha"] = ["alpha"]
    ∧ ∀ urls : List String, (extract_internal_links urls).Nodup :=
  ⟨by decide, by decide, fun urls => extractLoop_nodup urls [] List.nodup_nil⟩

/-- Claim C7: if the blob write fails, ingest aborts with a storage
failure; no upsert, backlink mutation or search submission happened and
every store is exactly as before the call. -/
theorem c7_blob_failure_aborts (md : MarkdownLib) (hs : Bool) (w : World)
    (req : IngestRequest) (tok : String) (now : Nat) (msg : String) (lvl : AccessLevel)
    (htok : req.service_token = tok) (hslug : req.slug ≠ "")
    (hlvl : AccessLevel.from_str_ci req.access_level = some lvl) :
    (process_ingest md hs ⟨none, some msg, none, none, none⟩ w req tok now).result
        = Except.error (AppError.Storage msg)
    ∧ (process_ingest md hs ⟨none, some msg, none, none, none⟩ w req tok now).world = w
    ∧ (process_ingest md hs ⟨none, some msg, none, none, none⟩ w req tok now).calls
        = [PortCall.findBySlug req.slug, PortCall.putObject (s3_key_of req.slug)] := by
  rw [process_ingest_valid md hs _ w req tok now lvl htok hslug hlvl]
  exact ⟨rfl, rfl, rfl⟩

/-- Witness for C7 at a concrete request. -/
theorem c7_witness :
    (reqA.service_token = "t" ∧ reqA.slug ≠ ""
      ∧ AccessLevel.from_str_ci reqA.access_level = some AccessLevel.Public)
    ∧ ((process_ingest mdX false ⟨none, some "s3down", none, none, none⟩ w0 reqA "t" 1).result
        = Except.error (AppError.Storage "s3down")
      ∧ (process_ingest mdX false ⟨none, some "s3down", none, none, none⟩ w0 reqA "t" 1).world
          = w0
      ∧ (process_ingest mdX false ⟨none, some "s3down", none, none, none⟩ w0 reqA "t" 1).calls
          = [PortCall.findBySlug reqA.slug, PortCall.putObject (s3_key_of reqA.slug)]) :=
  ⟨⟨rfl, by decide, by decide⟩,
    c7_blob_failure_aborts mdX false w0 reqA "t" 1 "s3down" AccessLevel.Public
      rfl (by decide) (by decide)⟩

/-- Claim C8: a credential mismatch yields an authorization failure,
leaves every store untouched and performs zero collaborator calls. -/
theorem c8_auth_failure_no_calls (md : MarkdownLib) (hs : Bool) (fl : Faults) (w : World)
    (req : IngestRequest) (tok : String) (now : Nat)
    (htok : req.service_token ≠ tok) :
    (process_ingest md hs fl w req tok now).result
        = Except.error (AppError.Auth "Invalid service token")
    ∧ (process_ingest md hs fl w req tok now).world = w
    ∧ (process_ingest md hs fl w req tok now).calls = [] := by
  unfold process_ingest
  rw [if_pos htok]
  exact ⟨rfl, rfl, rfl⟩

/-- Witness for C8 at a concrete wrong-token request. -/
theorem c8_witness :
    reqA.service_token ≠ "other-token"
    ∧ ((process_ingest mdX false noFaults w0 reqA "other-token" 1).result
        = Except.error (AppError.Auth "Invalid service token")
      ∧ (process_ingest mdX false noFaults w0 reqA "other-token" 1).world = w0
      ∧ (process_ingest mdX false noFaults w0 reqA "other-token" 1).calls = []) :=
  ⟨by decide, c8_auth_failure_no_calls mdX false noFaults w0 reqA "other-token" 1 (by decide)⟩

/-- Claim C9: on re-ingestion of an existing slug, `parent_slug`,
`order` and `hidden` fall back to the stored document's values when the
request leaves them at their unset sentinels (absent / 0 / false), and
a present `parent_slug` overwrites the stored one. -/
theorem c9_merge_by_sentinel (md : MarkdownLib) (hs : Bool) (w : World)
    (req : IngestRequest) (tok : String) (now : Nat) (od : Document) (lvl : AccessLevel)
    (htok : req.service_token = tok) (hslug : req.slug ≠ "")
    (hlvl : AccessLevel.from_str_ci req.access_level = some lvl)
    (hfind : find_by_slug req.slug w.repo = some od) :
    (process_ingest md hs noFaults w req tok now).result
        = Except.ok ⟨"Document ingested successfully", req.slug, s3_key_of req.slug⟩
    ∧ ∃ d', find_by_slug req.slug (process_ingest md hs noFaults w req tok now).world.repo
        = some d'
      ∧ (req.parent_slug = none → d'.parent_slug = od.parent_slug)
      ∧ (∀ p, req.parent_slug = some p → d'.parent_slug = some p)
      ∧ (req.order = 0 → d'.order = od.order)
      ∧ (req.is_hidden = false → d'.is_hidden = od.is_hidden) := by
  rw [process_ingest_valid md hs noFaults w req tok now lvl htok hslug hlvl]
  refine ⟨ingestChecked_noFaults_result md hs w req lvl now, ?_⟩
  rw [ingestChecked_noFaults_repo]
  have hfindcu : find_by_slug req.slug
      (create_or_update (buildDoc (find_by_slug req.slug w.repo) req lvl
        (extract_internal_links (md.linkUrls req.content)) now) w.repo)
      = some (buildDoc (find_by_slug req.slug w.repo) req lvl
        (extract_internal_links (md.linkUrls req.content)) now) :=
    cu_find_self (buildDoc (find_by_slug req.slug w.repo) req lvl
      (extract_internal_links (md.linkUrls req.content)) now) w.repo
  obtain ⟨d', hd', hp, ho, hh⟩ := find_ubl_fields req.slug
    (((find_by_slug req.slug w.repo).map Document.links_out).getD [])
    (extract_internal_links (md.linkUrls req.content)) _ req.slug _ hfindcu
  refine ⟨d', hd', ?_, ?_, ?_, ?_⟩
  · intro hnone
    rw [hp]
    show (if req.parent_slug.isSome then req.parent_slug
      else (find_by_slug req.slug w.repo).bind Document.parent_slug) = od.parent_slug
    rw [hnone, hfind]
    rfl
  · intro p hps
    rw [hp]
    show (if req.parent_slug.isSome then req.parent_slug
      else (find_by_slug req.slug w.repo).bind Document.parent_slug) = some p
    rw [hps]
    rfl
  · intro h0
    rw [ho]
    show (if req.order > 0 then req.order
      else ((find_by_slug req.slug w.repo).map Document.order).getD 0) = od.order
    rw [h0, hfind]
    rfl
  · intro hfalse
    rw [hh]
    show (if req.is_hidden then true
      else ((find_by_slug req.slug w.repo).map Document.is_hidden).getD false) = od.is_hidden
    rw [hfalse, hfind]
    rfl

/-- Witness for C9: re-ingesting `p` with all sentinels unset keeps the
stored hierarchy metadata. -/
theorem c9_witness :
    (reqP.service_token = "t" ∧ reqP.slug ≠ ""
      ∧ AccessLevel.from_str_ci reqP.access_level = some AccessLevel.Developer
      ∧ find_by_slug reqP.slug wP.repo = some dP)
    ∧ ((process_ingest mdX false noFaults wP reqP "t" 3).result
        = Except.ok ⟨"Document ingested successfully", reqP.slug, s3_key_of reqP.slug⟩
      ∧ ∃ d', find_by_slug reqP.slug (process_ingest mdX false noFaults wP reqP "t" 3).world.repo
          = some d'
        ∧ (reqP.parent_slug = none → d'.parent_slug = dP.parent_slug)
        ∧ (∀ p, reqP.parent_slug = some p → d'.parent_slug = some p)
        ∧ (reqP.order = 0 → d'.order = dP.order)
        ∧ (reqP.is_hidden = false → d'.is_hidden = dP.is_hidden)) :=
  ⟨⟨rfl, by decide, by decide, rfl⟩,
    c9_merge_by_sentinel mdX false wP reqP "t" 3 dP AccessLevel.Developer
      rfl (by decide) (by decide) rfl⟩

/-- Claim C10: a `parent_slug` that is present but empty (`some ""`) is
stored as-is, overwriting any previous parent — the sentinel test is
presence, not non-emptiness. -/
theorem c10_empty_parent_overwrites (md : MarkdownLib) (hs : Bool) (w : World)
    (req : IngestRequest) (tok : String) (now : Nat) (lvl : AccessLevel)
    (htok : req.service_token = tok) (hslug : req.slug ≠ "")
    (hlvl : AccessLevel.from_str_ci req.access_level = some lvl)
    (hps : req.parent_slug = some "") :
    ∃ d', find_by_slug req.slug (process_ingest md hs noFaults w req tok now).world.repo
        = some d'
      ∧ d'.parent_slug = some "" := by
  rw [process_ingest_valid md hs noFaults w req tok now lvl htok hslug hlvl,
    ingestChecked_noFaults_repo]
  have hfindcu : find_by_slug req.slug
      (create_or_update (buildDoc (find_by_slug req.slug w.repo) req lvl
        (extract_internal_links (md.linkUrls req.content)) now) w.repo)
      = some (buildDoc (find_by_slug req.slug w.repo) req lvl
        (extract_internal_links (md.linkUrls req.content)) now) :=
    cu_find_self (buildDoc (find_by_slug req.slug w.repo) req lvl
      (extract_internal_links (md.linkUrls req.content)) now) w.repo
  obtain ⟨d', hd', hp, _, _⟩ := find_ubl_fields req.slug
    (((find_by_slug req.slug w.repo).map Document.links_out).getD [])
    (extract_internal_links (md.linkUrls req.content)) _ req.slug _ hfindcu
  refine ⟨d', hd', ?_⟩
  rw [hp]
  show (if req.parent_slug.isSome then req.parent_slug
    else (find_by_slug req.slug w.repo).bind Document.parent_slug) = some ""
  rw [hps]
  rfl

/-- Witness for C10: re-ingesting `p` with `parent_slug = some ""`
overwrites the stored parent `some "root"`. -/
theorem c10_witness :
    (reqQ.service_token = "t" ∧ reqQ.slug ≠ ""
      ∧ AccessLevel.from_str_ci reqQ.access_level = some AccessLevel.Developer
      ∧ reqQ.parent_slug = some "")
    ∧ ∃ d', find_by_slug reqQ.slug (process_ingest mdX false noFaults wP reqQ "t" 4).world.repo
        = some d'
      ∧ d'.parent_slug = some "" :=
  ⟨⟨rfl, by decide, by decide, rfl⟩,
    c10_empty_parent_overwrites mdX false wP reqQ "t" 4 AccessLevel.Developer
      rfl (by decide) (by decide) rfl⟩

end Lekton
